import Mathlib

/-!
Shallow embedding of the `emergence` genetic-circuit compiler core.

Sources embedded here:
- `src/api/_utils/helpers.rs` (transfer, get_group)
- `src/api/_utils/assembler.rs` (search loop, walk, choose_node, update_weights, test)
- `src/api/_utils/data.rs` (library gene data and its Hill transfer function)
- `src/api/_utils/genetic_circuit/{mod.rs,gene.rs}` and `src/api/_utils/devices/gate.rs`
  (steady-state evaluator and dynamics simulator)

Floating-point (`f64`) values are modelled as real numbers; `HashMap`s are
modelled as association lists or as finitely-updated total functions; lookups
that unwrap (and would abort on a missing key) are modelled in the `Option`
monad; recursion over the circuit graph is bounded by explicit fuel.
-/

noncomputable section

namespace Helpers

/-- Split a character list at every underscore (the `curr.split("_")` of
`helpers.rs::get_group`, written out over the string's characters so that it
evaluates by kernel reduction). -/
def split_under : List Char → List (List Char)
  | [] => [[]]
  | c :: rest =>
    let r := split_under rest
    if c = ('_') then [] :: r else (c :: r.headD []) :: r.tail

/-- `helpers.rs::get_group`: split on an underscore, take the second piece,
`"none"` when there is no second piece. -/
def get_group (curr : String) : String :=
  let group := (split_under curr.data).map (fun cs => String.mk cs)
  if group.length < 2 then "none" else group.getD 1 ("")

end Helpers

namespace Asm

/-- `assembler.rs::Params` — the old assembler's Hill parameters (no decay). -/
structure Params where
  ymax : ℝ
  ymin : ℝ
  k : ℝ
  n : ℝ

/-- `assembler.rs::BioGate`. -/
structure BioGate where
  name : String
  parts : List String
  promoter : String
  params : Params

/-- `assembler.rs::Input`. -/
structure Input where
  name : String
  promoter : String
  rpu_off : ℝ
  rpu_on : ℝ

/-- Fallback gate used to model out-of-range indexing of `gates_vec`
(the source aborts there; indices produced by the code stay in range). -/
def default_gate : BioGate := ⟨"", [], "", ⟨0, 0, 0, 0⟩⟩

/-- `helpers.rs::transfer`: `ymin + (ymax - ymin) / (1 + (x / k)^n)`. -/
def transfer (x : ℝ) (params : Params) : ℝ :=
  params.ymin + (params.ymax - params.ymin) / (1 + (x / params.k) ^ params.n)

/-- The summing pass of `assembler.rs::choose_node` (lines 659-666): walk the
weights with their index, skipping candidates whose group is blacklisted. -/
def choose_sum (lib : List BioGate) (bl : List String) : ℕ → ℝ → List ℝ → ℝ
  | _, s, [] => s
  | i, s, w :: rest =>
    choose_sum lib bl (i + 1)
      (if Helpers.get_group (lib.getD i default_gate).name ∈ bl then s else s + w) rest

/-- The accumulation pass of `assembler.rs::choose_node` (lines 667-677):
first non-blacklisted index whose cumulative normalized mass reaches `ch`. -/
def choose_acc (lib : List BioGate) (bl : List String) (ch s : ℝ) :
    ℕ → ℝ → List ℝ → Option ℕ
  | _, _, [] => none
  | i, acc, w :: rest =>
    if Helpers.get_group (lib.getD i default_gate).name ∈ bl then
      choose_acc lib bl ch s (i + 1) acc rest
    else
      if ch ≤ acc + w / s then some i
      else choose_acc lib bl ch s (i + 1) (acc + w / s) rest

/-- `assembler.rs::choose_node` (lines 658-679): roulette-wheel selection over
non-blacklisted candidates, falling back to the last index. -/
def choose_node (lib : List BioGate) (ch : ℝ) (weights : List ℝ) (bl : List String) : ℕ :=
  let s := choose_sum lib bl 0 0 weights
  match choose_acc lib bl ch s 0 0 weights with
  | some i => i
  | none => weights.length - 1

/-- The weight-row mutation of `assembler.rs::update_weights` (lines 700-707):
pull the chosen slot toward the reward, then divide every slot by the sum of
the updated row. -/
def update_row (lr pr : ℝ) (idx : ℕ) (ws : List ℝ) : List ℝ :=
  let target := pr - ws.getD idx 0
  let ws1 := ws.set idx (ws.getD idx 0 + lr * target)
  let s := ws1.sum
  ws1.map (fun w => w / s)

end Asm

namespace Builder

/-- `builder.rs::GateKind`. -/
inductive GateKind
  | NOT
  | NOR
  | Unknown
deriving DecidableEq

/-- `builder.rs::Gate`. -/
structure Gate where
  inputs : List String
  kind : GateKind

/-- `builder.rs`: named argument of the logic function (name and source
position). -/
structure Arg where
  name : String
  pos : ℕ

/-- `builder.rs::LogicCircuit`; the `gates` hash map is modelled as an
association list. -/
structure LogicCircuit where
  inputs : List Arg
  output : Arg
  gates : List (String × Gate)

end Builder

namespace Helpers

/-- `helpers.rs::ErrorKind`. -/
inductive ErrorKind
  | SyntaxError
  | CompileError
  | AssignError

/-- `helpers.rs::Error`. -/
structure Error where
  kind : ErrorKind
  message : String
  pos : ℕ × ℕ

/-- `helpers.rs::assign_err`. -/
def assign_err (message : String) (pos : ℕ × ℕ) : Error :=
  ⟨ErrorKind.AssignError, message, pos⟩

/-- Modelled from the spec: `helpers::lrate` is referenced by
`assembler.rs::search` but missing from the sources; the spec gives
`lr = exp(-i/N)`. -/
def lrate (i len : ℝ) : ℝ := Real.exp (-i / len)

/-- Modelled from the spec: `helpers::out_error` is referenced by
`assembler.rs::search` but missing from the sources; the spec gives
`reward = 1 - exp(-score/200)`. -/
def out_error (x : ℝ) : ℝ := 1 - Real.exp (-x / 200)

/-- Modelled from the spec: `helpers::gen_matrix` is referenced by
`assembler.rs::init` but missing from the sources; the spec says a Layer is
initialized by broadcasting one sampled value to every slot.  The sampled
value is taken as a parameter. -/
def gen_matrix (rows cols : ℕ) (w : ℝ) : List (List ℝ) :=
  List.replicate rows (List.replicate cols w)

end Helpers

namespace Asm

/-- Per-position weight matrices, keyed by gate name
(`layers: HashMap<String, Vec<Vec<f64>>>`). -/
def Layers : Type := List (String × List (List ℝ))

/-- Replace the value stored at an existing key of an association list
(used where the source mutates through `get_mut`). -/
def replace_assoc (l : Layers) (k : String) (v : List (List ℝ)) : Layers :=
  l.map (fun p => if p.1 = k then (k, v) else p)

/-- `self.inputs.contains_key(name)` on the input catalog. -/
def has_input (inputsL : List Input) (name : String) : Bool :=
  inputsL.any (fun i => i.name == name)

/-- Lookup of an input by its catalog key. -/
def find_input (inputsL : List Input) (name : String) : Option Input :=
  inputsL.find? (fun i => i.name == name)

/-- State threaded through `assembler.rs::walk`: the selected assignment, the
blacklist of used groups, and the remaining random draws (one consumed for
each processed node, modelling the `uni.sample(rng)` calls). -/
structure WalkSt where
  selected : List (String × ℕ)
  bl : List String
  draws : List ℝ

mutual

/-- `assembler.rs::walk` (lines 599-623), with explicit fuel for the
recursion over the gate graph. -/
def walk (inputsL : List Input) (lib : List BioGate) (gates : List (String × Builder.Gate))
    (layers : Layers) : ℕ → String → ℕ → WalkSt → Option WalkSt
  | 0, _, _, _ => none
  | fuel + 1, name, prev, st =>
    if has_input inputsL name = true ∨ (List.lookup name st.selected).isSome = true then some st
    else do
      let gate ← List.lookup name gates
      let layer ← List.lookup name layers
      let row ← layer[prev]?
      let ch ← st.draws.head?
      let sel := choose_node lib ch row st.bl
      let node ← lib[sel]?
      walk_list inputsL lib gates layers fuel gate.inputs sel
        ⟨(name, sel) :: st.selected, Helpers.get_group node.name :: st.bl, st.draws.tail⟩

/-- The `for inp in &gate.inputs` recursion of `assembler.rs::walk`. -/
def walk_list (inputsL : List Input) (lib : List BioGate) (gates : List (String × Builder.Gate))
    (layers : Layers) : ℕ → List String → ℕ → WalkSt → Option WalkSt
  | _, [], _, st => some st
  | 0, _ :: _, _, _ => none
  | fuel + 1, inp :: rest, prev, st =>
    (walk inputsL lib gates layers fuel inp prev st).bind
      (walk_list inputsL lib gates layers fuel rest prev)

end

/-- State threaded through `assembler.rs::test`: visited set and
memoization cache. -/
structure TestSt where
  visited : List String
  cached : List (String × (ℝ × ℝ))

mutual

/-- `assembler.rs::test` (lines 625-656): memoized recursive steady-state
walk combining children by `max` and applying the assigned gate's transfer
function with swapped arguments. -/
def test (inputsL : List Input) (lib : List BioGate) (gates : List (String × Builder.Gate))
    (selected : List (String × ℕ)) : ℕ → String → TestSt → Option ((ℝ × ℝ) × TestSt)
  | 0, _, _ => none
  | fuel + 1, name, st =>
    if st.visited.contains name = true then
      some ((List.lookup name st.cached).getD (0, 0), st)
    else
      match find_input inputsL name with
      | some inp => some ((inp.rpu_off, inp.rpu_on), st)
      | none => do
        let gate ← List.lookup name gates
        let r ← test_list inputsL lib gates selected fuel gate.inputs
          ((0, 0), ⟨name :: st.visited, st.cached⟩)
        let sel ← List.lookup name selected
        let bg ← lib[sel]?
        let new_off := transfer r.1.2 bg.params
        let new_on := transfer r.1.1 bg.params
        pure ((new_off, new_on), ⟨r.2.visited, (name, (new_off, new_on)) :: r.2.cached⟩)

/-- The `for inp in &gate.inputs` recursion of `assembler.rs::test`. -/
def test_list (inputsL : List Input) (lib : List BioGate) (gates : List (String × Builder.Gate))
    (selected : List (String × ℕ)) : ℕ → List String → ((ℝ × ℝ) × TestSt) → Option ((ℝ × ℝ) × TestSt)
  | _, [], acc => some acc
  | 0, _ :: _, _ => none
  | fuel + 1, inp :: rest, acc => do
    let r ← test inputsL lib gates selected fuel inp acc.2
    test_list inputsL lib gates selected fuel rest
      ((max r.1.1 acc.1.1, max r.1.2 acc.1.2), r.2)

end

mutual

/-- `assembler.rs::update_weights` (lines 681-713): visit each gate once,
pull the chosen slot of its `prev`-indexed weight row toward the reward and
renormalize the row, then recurse into the gate's inputs. -/
def update_weights (inputsL : List Input) (gates : List (String × Builder.Gate))
    (lr pr : ℝ) : ℕ → String → ℕ → List (String × ℕ) → Layers → List String →
    Option (Layers × List String)
  | 0, _, _, _, _, _ => none
  | fuel + 1, name, prev, selected, layers, visited =>
    if visited.contains name = true then some (layers, visited)
    else if has_input inputsL name = true then some (layers, visited)
    else do
      let layer ← List.lookup name layers
      let idx ← List.lookup name selected
      let ws ← layer[prev]?
      let layer1 := layer.set prev (update_row lr pr idx ws)
      let layers1 := replace_assoc layers name layer1
      let gate ← List.lookup name gates
      update_weights_list inputsL gates lr pr fuel gate.inputs idx selected layers1
        (name :: visited)

/-- The `for inp in &gate.inputs` recursion of `assembler.rs::update_weights`. -/
def update_weights_list (inputsL : List Input) (gates : List (String × Builder.Gate))
    (lr pr : ℝ) : ℕ → List String → ℕ → List (String × ℕ) → Layers → List String →
    Option (Layers × List String)
  | _, [], _, _, layers, visited => some (layers, visited)
  | 0, _ :: _, _, _, _, _ => none
  | fuel + 1, inp :: rest, idx, selected, layers, visited => do
    let u ← update_weights inputsL gates lr pr fuel inp idx selected layers visited
    update_weights_list inputsL gates lr pr fuel rest idx selected u.1 u.2

end

mutual

/-- `assembler.rs::init` (lines 581-597): build each reachable gate's weight
matrix once. -/
def init (gates : List (String × Builder.Gate)) (w0 : String → ℝ) :
    ℕ → String → ℕ → ℕ → Layers → Layers
  | 0, _, _, _, layers => layers
  | fuel + 1, name, num_inputs, num_nodes, layers =>
    if (List.lookup name layers).isSome = true then layers
    else
      match List.lookup name gates with
      | none => layers
      | some gate =>
        init_list gates w0 fuel gate.inputs num_nodes
          ((name, Helpers.gen_matrix num_inputs num_nodes (w0 name)) :: layers)

/-- The `for inp in &gate.inputs` recursion of `assembler.rs::init`. -/
def init_list (gates : List (String × Builder.Gate)) (w0 : String → ℝ) :
    ℕ → List String → ℕ → Layers → Layers
  | _, [], _, layers => layers
  | 0, _ :: _, _, layers => layers
  | fuel + 1, inp :: rest, num_nodes, layers =>
    init_list gates w0 fuel rest num_nodes (init gates w0 fuel inp num_nodes num_nodes layers)

end

/-- The incumbent-score update of `assembler.rs::search` (lines 562-565). -/
def incumbent_score (score best : ℝ) : ℝ := if score > best then score else best

/-- The incumbent-assignment update of `assembler.rs::search` (lines 562-565). -/
def incumbent_ass (score best : ℝ) (sel ass : List (String × ℕ)) : List (String × ℕ) :=
  if score > best then sel else ass

/-- Everything `assembler.rs::search` reads: the loaded catalogs, the logic
circuit, the random draws (one list per iteration for `walk`, plus the layer
initialization samples), and the recursion fuel. -/
structure SearchCtx where
  inputsL : List Input
  lib : List BioGate
  lc : Builder.LogicCircuit
  draws : ℕ → List ℝ
  w0 : String → ℝ
  fuel : ℕ

/-- State carried across iterations of the search loop. -/
structure SearchSt where
  layers : Layers
  best_score : ℝ
  best_ass : List (String × ℕ)

/-- The message of the capacity error of `assembler.rs::search`
(lines 512-520). -/
def capacity_message (l : ℕ) : String :=
  "Number of gates exceeds maximum: " ++ toString l

/-- One iteration of the `for i in 0..len` loop of `assembler.rs::search`
(lines 530-577): anneal the learning rate, sample an assignment, score it
twice through the memoized test, update the incumbent, and feed the
transformed reward back into the layers. -/
def search_step (c : SearchCtx) (i : ℕ) (st : SearchSt) : Option SearchSt := do
  let lr := Helpers.lrate (i : ℝ) 6000
  let bl0 := c.lc.inputs.map (fun a => a.name)
  let w ← walk c.inputsL c.lib c.lc.gates st.layers c.fuel c.lc.output.name 0 ⟨[], bl0, c.draws i⟩
  let t1 ← test c.inputsL c.lib c.lc.gates w.selected c.fuel c.lc.output.name ⟨[], []⟩
  let t2 ← test c.inputsL c.lib c.lc.gates w.selected c.fuel c.lc.output.name ⟨[], t1.2.cached⟩
  let score := t2.1.2 / t2.1.1
  let pr := Helpers.out_error score
  let u ← update_weights c.inputsL c.lc.gates lr pr c.fuel c.lc.output.name 0 w.selected st.layers []
  pure ⟨u.1, incumbent_score score st.best_score, incumbent_ass score st.best_score w.selected st.best_ass⟩

/-- The state before the first iteration: freshly initialized layers, best
score `0.0` and empty best assignment (lines 521-529). -/
def init_state (c : SearchCtx) : SearchSt :=
  ⟨init c.lc.gates c.w0 c.fuel c.lc.output.name 1 c.lib.length [], 0, []⟩

/-- The first `n` iterations of the search loop. -/
def search_loop (c : SearchCtx) : ℕ → Option SearchSt
  | 0 => some (init_state c)
  | n + 1 => (search_loop c n).bind (search_step c n)

/-- `assembler.rs::search` (lines 511-579): capacity check, then 6000
sample→score→update iterations; a missing internal lookup (a panic in the
source) is modelled by `none`. -/
def search (c : SearchCtx) : Option (Except Helpers.Error (List (String × ℕ) × ℝ)) :=
  if c.lc.gates.length > c.lib.length then
    some (Except.error (Helpers.assign_err (capacity_message c.lib.length) (0, 0)))
  else
    (search_loop c 6000).map (fun st => Except.ok (st.best_ass, st.best_score))

end Asm

namespace DataM

/-- `data.rs::Params` — the library gene's Hill parameters, including decay. -/
structure Params where
  ymax : ℝ
  ymin : ℝ
  k : ℝ
  n : ℝ
  decay : ℝ

/-- `data.rs::Gene` — a library gene record. -/
structure GeneData where
  name : String
  parts : List String
  promoter : String
  color : String
  inputs : List String
  params : Params
  state : ℝ

/-- `data.rs::Gene::group` (lines 71-77): same computation as
`helpers.rs::get_group` applied to the gene's name. -/
def GeneData.group (g : GeneData) : String := Helpers.get_group g.name

/-- `data.rs::Gene::transfer` (lines 79-81):
`ymin + (ymax - ymin) / (1 + (x/k)^n)`. -/
def GeneData.transfer (g : GeneData) (x : ℝ) : ℝ :=
  g.params.ymin + (g.params.ymax - g.params.ymin) / (1 + (x / g.params.k) ^ g.params.n)

/-- The two-argument `Gene::steady_state(on, off)` used by
`devices/gate.rs::test_steady_state` (its body is
`genetic_circuit/gene.rs` lines 70-75): `(transfer(on)/decay,
transfer(off)/decay)`. -/
def GeneData.steady_state (g : GeneData) (con coff : ℝ) : ℝ × ℝ :=
  (g.transfer con / g.params.decay, g.transfer coff / g.params.decay)

end DataM

/-- A memo cache mapping a promoter to an `(off, on, diff)` triple
(`devices/gate.rs`). -/
def Cache3 : Type := String → Option (ℝ × ℝ × ℝ)

/-- A memo cache mapping a promoter to an `(off, on, diff, score)` tuple
(`genetic_circuit/gene.rs`). -/
def Cache4 : Type := String → Option (ℝ × ℝ × ℝ × ℝ)

/-- `HashMap::insert` on a map modelled as a function. -/
def set_key {α : Type} (m : String → Option α) (k : String) (v : α) : String → Option α :=
  fun q => if q = k then some v else m q

/-- Update one key of a totally-modelled map. -/
def set_fun {α : Type} (m : String → α) (k : String) (v : α) : String → α :=
  fun q => if q = k then v else m q

namespace Devices

/-- `devices/gate.rs::GateKind`. -/
inductive GateKind
  | Not
  | Nor
deriving DecidableEq

/-- `devices/gate.rs::Gate`. -/
structure Gate where
  output : String
  inputs : List String
  kind : GateKind

/-- `devices/gate.rs::Gate::test_steady_state` (lines 59-74): combine the
cached child tuples according to the gate kind, then apply the library
gene's steady-state transfer, and cache the result under the gate's output.
The library index lookup `data.get_gene_at(i)` is passed in as `lib`/`i`. -/
def Gate.test_steady_state (g : Gate) (lib : List DataM.GeneData) (i : ℕ)
    (cached : Cache3) : Option Cache3 := do
  let comb ←
    match g.kind with
    | GateKind.Not => do
        let i0 ← g.inputs[0]?
        cached i0
    | GateKind.Nor => do
        let i0 ← g.inputs[0]?
        let i1 ← g.inputs[1]?
        let t0 ← cached i0
        let t1 ← cached i1
        match t0, t1 with
        | (coff0, con0, diff0), (coff1, con1, diff1) =>
          pure (coff0 + coff1, min con0 con1,
            |con0 - con1| + |coff0 - coff1| + diff0 + diff1)
  let gene ← lib[i]?
  match comb with
  | (coff, con, d) =>
    let p := gene.steady_state con coff
    pure (set_key cached g.output (p.1, p.2, d))

end Devices

namespace GC

/-- `genetic_circuit/signal.rs::Signal`. -/
structure Signal where
  name : String
  promoter : String
  rpu_off : ℝ
  rpu_on : ℝ

/-- `genetic_circuit/actuator.rs::Actuator`. -/
structure Actuator where
  name : String
  input : String

/-- `genetic_circuit/gene.rs::Gene`. -/
structure Gene where
  data : DataM.GeneData
  color : String
  inputs : List String

/-- `genetic_circuit/gene.rs::Gene::promoter`. -/
def Gene.promoter (g : Gene) : String := g.data.promoter

/-- `genetic_circuit/gene.rs::Gene::transfer` (lines 50-53). -/
def Gene.transfer (g : Gene) (x : ℝ) : ℝ :=
  g.data.params.ymin +
    (g.data.params.ymax - g.data.params.ymin) / (1 + (x / g.data.params.k) ^ g.data.params.n)

/-- `genetic_circuit/gene.rs::Gene::model` (lines 55-57):
`transfer(sum) - decay * state`. -/
def Gene.model (g : Gene) (sum state : ℝ) : ℝ :=
  g.transfer sum - g.data.params.decay * state

/-- `genetic_circuit/gene.rs::Gene::steady_state` (lines 70-75):
`(transfer(on)/decay, transfer(off)/decay)` — arguments swapped. -/
def Gene.steady_state (g : Gene) (con coff : ℝ) : ℝ × ℝ :=
  (g.transfer con / g.data.params.decay, g.transfer coff / g.data.params.decay)

/-- `genetic_circuit/gene.rs::Gene::test_steady_state` (lines 90-107): for a
two-input gene combine the children (sum of offs, min of ons, accumulated
mismatch, ratio of summed ons to summed offs); for any other fan-in pass the
single child's tuple through; then apply the steady-state transfer and cache
under the gene's promoter, carrying `diff` and `score` unchanged. -/
def Gene.test_steady_state (g : Gene) (cached : Cache4) : Option Cache4 := do
  let curr ←
    if g.inputs.length = 2 then do
      let i0 ← g.inputs[0]?
      let i1 ← g.inputs[1]?
      let t0 ← cached i0
      let t1 ← cached i1
      match t0, t1 with
      | (coff0, con0, diff0, _s0), (coff1, con1, diff1, _s1) =>
        pure (coff0 + coff1, min con0 con1,
          |con0 - con1| + |coff0 - coff1| + diff0 + diff1,
          (con0 + con1) / (coff0 + coff1))
    else do
      let i0 ← g.inputs[0]?
      cached i0
  match curr with
  | (coff, con, d, s) =>
    let p := g.steady_state con coff
    pure (set_key cached g.promoter (p.1, p.2, d, s))

/-- Simulation state: per-promoter concentration and per-promoter history.
The source's hash maps abort on a missing key; lookups here default through
the total function (all keys read by the code are initialized up front). -/
structure SimSt where
  states : String → ℝ
  history : String → List ℝ

/-- `genetic_circuit/gene.rs::Gene::model_and_save` (lines 59-68): drive the
gene with the sum of its input promoters' current concentrations, take one
explicit-Euler step, and append the new concentration to the history. -/
def Gene.model_and_save (g : Gene) (st : SimSt) : SimSt :=
  let promoter := g.data.promoter
  let sum := (g.inputs.map st.states).sum
  let state := st.states promoter
  let flux := g.model sum state
  let new_state := state + flux
  ⟨set_fun st.states promoter new_state,
   set_fun st.history promoter (st.history promoter ++ [new_state])⟩

/-- `genetic_circuit/gene.rs::Gene::simulation_steady_state` (lines 77-88). -/
def Gene.simulation_steady_state (g : Gene) (cached : String → Option (ℝ × ℝ)) :
    Option (String → Option (ℝ × ℝ)) := do
  let sums ← g.inputs.foldlM
    (fun (acc : ℝ × ℝ) inp => (cached inp).map (fun p => (acc.1 + p.1, acc.2 + p.2))) (0, 0)
  let p := g.steady_state sums.2 sums.1
  pure (set_key cached g.data.promoter (p.1, p.2))

/-- `genetic_circuit/component.rs::Component`. -/
inductive Component
  | Gene (g : GC.Gene)
  | Signal (s : GC.Signal)

/-- `Component::promoter`. -/
def Component.promoter : Component → String
  | Component.Gene g => g.promoter
  | Component.Signal s => s.promoter

/-- Whether a component is a gene (signal components are inert in the
simulation and steady-state passes). -/
def Component.isGene : Component → Bool
  | Component.Gene _ => true
  | Component.Signal _ => false

/-- `Component::test_steady_state`: genes update the cache, signals do
nothing. -/
def Component.test_steady_state : Component → Cache4 → Option Cache4
  | Component.Gene g, cached => g.test_steady_state cached
  | Component.Signal _, cached => some cached

/-- `Component::model_and_save`: genes update the simulation state, signals
do nothing. -/
def Component.model_and_save : Component → SimSt → SimSt
  | Component.Gene g, st => g.model_and_save st
  | Component.Signal _, st => st

/-- `logic_circuit/mod.rs::Testbench`: time-indexed boolean input schedule. -/
structure Testbench where
  breakpoints : List (ℕ × List (String × Bool))

/-- `genetic_circuit/mod.rs::GeneticCircuit` (the `simulation` field of the
source is the output of `simulate` and is not carried here). -/
structure GeneticCircuit where
  inputs : List Signal
  outputs : List Actuator
  components : List Component
  score : Option ℝ

/-- `genetic_circuit/mod.rs::GeneticCircuit::inv_diff_error` (lines 48-50):
`exp(-x/10)`. -/
def GeneticCircuit.inv_diff_error (x : ℝ) : ℝ := Real.exp (-x / 10)

/-- The input seeding of `GeneticCircuit::test` (lines 156-161): each input
promoter starts at `(rpu_off, rpu_on, 0, rpu_on/rpu_off)`. -/
def GeneticCircuit.test_init (gc : GeneticCircuit) : Cache4 :=
  gc.inputs.foldl
    (fun c inp => set_key c inp.promoter (inp.rpu_off, inp.rpu_on, 0, inp.rpu_on / inp.rpu_off))
    (fun _ => none)

/-- The resolved output-node tuple of `GeneticCircuit::test` (lines 163-167):
run every component's steady-state pass in order, then read the cache at the
output actuator's input promoter. -/
def GeneticCircuit.resolved_output (gc : GeneticCircuit) : Option (ℝ × ℝ × ℝ × ℝ) := do
  let c ← gc.components.foldlM (fun cc comp => comp.test_steady_state cc) gc.test_init
  let out ← gc.outputs[0]?
  c out.input

/-- `genetic_circuit/mod.rs::GeneticCircuit::test` (lines 154-173): the
returned top-level score `inv_diff_error(diff) * score` of the resolved
output tuple. -/
def GeneticCircuit.test (gc : GeneticCircuit) : Option ℝ := do
  let t ← gc.resolved_output
  match t with
  | (_off, _on, d, s) => pure (GeneticCircuit.inv_diff_error d * s)

/-- The breakpoint phase of one simulation step (lines 191-204): scheduled
testbench entries retarget the named inputs' concentrations. -/
def GeneticCircuit.bp_phase (signals : String → Signal) (tb : Testbench) (i : ℕ)
    (st : SimSt) : SimSt :=
  match List.lookup i tb.breakpoints with
  | none => st
  | some bp =>
    ⟨bp.foldl (fun s nv =>
        let inp := signals nv.1
        set_fun s inp.promoter (if nv.2 = true then inp.rpu_on else inp.rpu_off)) st.states,
     st.history⟩

/-- The input phase of one simulation step (lines 206-210): each input's
current concentration is appended to its own history. -/
def GeneticCircuit.inputs_phase (gc : GeneticCircuit) (st : SimSt) : SimSt :=
  gc.inputs.foldl
    (fun s inp =>
      ⟨s.states, set_fun s.history inp.promoter (s.history inp.promoter ++ [s.states inp.promoter])⟩)
    st

/-- The gene phase of one simulation step (lines 212-214): every component's
`model_and_save`, in assembly order. -/
def GeneticCircuit.genes_phase (gc : GeneticCircuit) (st : SimSt) : SimSt :=
  gc.components.foldl (fun s comp => comp.model_and_save s) st

/-- One iteration of the `for i in 0..1000` loop of
`GeneticCircuit::simulate` (lines 190-215). -/
def GeneticCircuit.sim_step (signals : String → Signal) (tb : Testbench)
    (gc : GeneticCircuit) (i : ℕ) (st : SimSt) : SimSt :=
  GeneticCircuit.genes_phase gc
    (GeneticCircuit.inputs_phase gc (GeneticCircuit.bp_phase signals tb i st))

/-- The initial simulation state (lines 180-189): inputs start at their off
level with empty history, gene promoters start at `0.0` with empty history. -/
def GeneticCircuit.sim_init (gc : GeneticCircuit) : SimSt :=
  ⟨gc.components.foldl (fun s comp => set_fun s comp.promoter 0)
      (gc.inputs.foldl (fun s inp => set_fun s inp.promoter inp.rpu_off) (fun _ => 0)),
   gc.components.foldl (fun h comp => set_fun h comp.promoter [])
      (gc.inputs.foldl (fun h inp => set_fun h inp.promoter []) (fun _ => []))⟩

/-- `genetic_circuit/mod.rs::GeneticCircuit::simulate` (lines 175-221),
history part: 1000 fixed steps of breakpoints, input pushes, and gene
explicit-Euler updates.  (The steady-state side map the source builds
alongside is `Gene.simulation_steady_state`, independent of the history.) -/
def GeneticCircuit.simulate (signals : String → Signal) (gc : GeneticCircuit)
    (tb : Testbench) : SimSt :=
  (List.range 1000).foldl
    (fun s i => GeneticCircuit.sim_step signals tb gc i s) (GeneticCircuit.sim_init gc)

/-- The promoters of the returned history map: every input promoter and every
component promoter. -/
def GeneticCircuit.tracked (gc : GeneticCircuit) : List String :=
  gc.inputs.map (fun i => i.promoter) ++ gc.components.map Component.promoter

end GC

/-! ## Claim C5 — the Layer weight update -/

/-- C5 (counterexample): the claim says `update` sets `weight[i]` to
`weight[i] + lr*(r - weight[i])` and leaves the other slots untouched.  On
`weights = [1, 1]`, `lr = 1/2`, `reward = 0`, `chosen = 0` the code produces
`[1/3, 2/3]`: the chosen slot is not `1 + (1/2)*(0 - 1) = 1/2` and the other
slot moved from `1` to `2/3`. -/
theorem update_weights_row_counterexample :
    Asm.update_row (1/2) 0 0 [1, 1] = [(1 : ℝ)/3, 2/3]
    ∧ ((1 : ℝ)/3 ≠ 1 + (1/2) * (0 - 1))
    ∧ ((2 : ℝ)/3 ≠ 1) := by
  refine ⟨?_, by norm_num, by norm_num⟩
  norm_num [Asm.update_row]

/-- C5 (amended): the row update first pulls the chosen slot toward the
reward, `v = w + lr*(r - w)`, and then divides every slot of the updated row
by the row's new sum `S`; the chosen slot ends at `v/S` and every other slot
`j` ends at `weight[j]/S`. -/
theorem update_weights_row_normalizes (lr pr : ℝ) (i j : ℕ) (ws : List ℝ) (w wj : ℝ)
    (hw : ws[i]? = some w) (hwj : ws[j]? = some wj) (hij : j ≠ i) :
    (Asm.update_row lr pr i ws)[i]? =
      some ((w + lr * (pr - w)) / (ws.set i (w + lr * (pr - w))).sum)
    ∧ (Asm.update_row lr pr i ws)[j]? =
      some (wj / (ws.set i (w + lr * (pr - w))).sum) := by
  have hgd : ws.getD i 0 = w := by simp [List.getD_eq_getElem?_getD, hw]
  have hi : i < ws.length := by
    by_contra hlt
    rw [List.getElem?_eq_none (by omega)] at hw
    exact Option.noConfusion hw
  constructor
  · simp only [Asm.update_row, hgd, List.getElem?_map]
    rw [List.getElem?_set_eq_of_lt _ hi]
    rfl
  · simp only [Asm.update_row, hgd, List.getElem?_map]
    rw [List.getElem?_set_ne (fun h => hij h.symm), hwj]
    rfl

/-- C5 (witness for the amended theorem): concrete instance `[1, 1]`,
`i = 0`, `j = 1`. -/
theorem update_weights_row_normalizes_witness :
    ([1, 1] : List ℝ)[0]? = some 1
    ∧ ([1, 1] : List ℝ)[1]? = some 1
    ∧ (1 : ℕ) ≠ 0
    ∧ (Asm.update_row (1/2) 0 0 [1, 1])[0]? =
        some (((1 : ℝ) + (1/2) * (0 - 1)) / (([1, 1] : List ℝ).set 0 (1 + (1/2) * (0 - 1))).sum) :=
  ⟨rfl, rfl, by decide,
    (update_weights_row_normalizes (1/2) 0 0 1 [1, 1] 1 1 rfl rfl (by decide)).1⟩

/-! ## Claim C6 — the transfer stage of the steady-state evaluator -/

/-- C6 (confirmed): with a resolved child tuple `(off, on, diff, score)`, the
evaluator's gene step stores `new_off = transfer(on)/decay` and
`new_on = transfer(off)/decay` under the gene's promoter — the arguments of
the Hill transfer function `ymin + (ymax-ymin)/(1+(x/K)^n)` are swapped and
divided by decay. -/
theorem gene_transfer_swap_and_decay (g : GC.Gene) (a : String) (cached : Cache4)
    (coff con d s : ℝ) (hin : g.inputs = [a]) (hc : cached a = some (coff, con, d, s)) :
    g.test_steady_state cached =
      some (set_key cached g.promoter
        (g.transfer con / g.data.params.decay, g.transfer coff / g.data.params.decay, d, s))
    ∧ g.steady_state con coff =
        (g.transfer con / g.data.params.decay, g.transfer coff / g.data.params.decay)
    ∧ (∀ x, g.transfer x =
        g.data.params.ymin +
          (g.data.params.ymax - g.data.params.ymin) /
            (1 + (x / g.data.params.k) ^ g.data.params.n)) := by
  refine ⟨?_, rfl, fun x => rfl⟩
  simp [GC.Gene.test_steady_state, hin, hc, GC.Gene.steady_state]

/-- Concrete gene for the C6 witness. -/
def c6gene : GC.Gene := ⟨⟨"g_a", [], "Pg", "", [], ⟨2, 1, 1, 1, 1⟩, 0⟩, "", ["Px"]⟩

/-- Concrete cache for the C6 witness. -/
def c6cached : Cache4 := set_key (fun _ => none) ("Px") (1, 2, 0, 2)

/-- C6 (witness): the theorem applied to a concrete single-input gene. -/
theorem gene_transfer_swap_and_decay_witness :
    c6gene.inputs = ["Px"]
    ∧ c6cached ("Px") = some (1, 2, 0, 2)
    ∧ c6gene.test_steady_state c6cached =
        some (set_key c6cached c6gene.promoter
          (c6gene.transfer 2 / c6gene.data.params.decay,
            c6gene.transfer 1 / c6gene.data.params.decay, 0, 2)) :=
  ⟨rfl, rfl, (gene_transfer_swap_and_decay c6gene ("Px") c6cached 1 2 0 2 rfl rfl).1⟩

/-! ## Claim C2 — NOR combination and NOT pass-through -/

/-- C2 (confirmed): the steady-state evaluator combines a NOR gate's two
children as `off = off0 + off1`, `on = min(on0, on1)`,
`diff = |on0 - on1| + |off0 - off1| + diff0 + diff1` before applying the
assigned gene's transfer stage, and passes a NOT gate's single child tuple
through unchanged into the same transfer stage. -/
theorem nor_not_steady_state_combination (lib : List DataM.GeneData) (i : ℕ)
    (gene : DataM.GeneData) (hlib : lib[i]? = some gene)
    (gNor gNot : Devices.Gate) (a b aN : String) (cached3 cachedN : Cache3)
    (off0 on0 d0 off1 on1 d1 offc onc dc : ℝ)
    (hNork : gNor.kind = Devices.GateKind.Nor) (hNorIn : gNor.inputs = [a, b])
    (h0 : cached3 a = some (off0, on0, d0)) (h1 : cached3 b = some (off1, on1, d1))
    (hNotk : gNot.kind = Devices.GateKind.Not) (hNotIn : gNot.inputs = [aN])
    (hN : cachedN aN = some (offc, onc, dc)) :
    gNor.test_steady_state lib i cached3 =
      some (set_key cached3 gNor.output
        (gene.transfer (min on0 on1) / gene.params.decay,
          gene.transfer (off0 + off1) / gene.params.decay,
          |on0 - on1| + |off0 - off1| + d0 + d1))
    ∧ gNot.test_steady_state lib i cachedN =
        some (set_key cachedN gNot.output
          (gene.transfer onc / gene.params.decay,
            gene.transfer offc / gene.params.decay, dc)) := by
  obtain ⟨o1, in1, k1⟩ := gNor
  obtain ⟨o2, in2, k2⟩ := gNot
  simp only at hNork hNorIn hNotk hNotIn
  subst hNork hNorIn hNotk hNotIn
  constructor
  · simp [Devices.Gate.test_steady_state, h0, h1, hlib, DataM.GeneData.steady_state]
  · simp [Devices.Gate.test_steady_state, hN, hlib, DataM.GeneData.steady_state]

/-- Concrete library gene for the C2 witness. -/
def c2gene : DataM.GeneData := ⟨"g_a", [], "Pg", "", [], ⟨2, 1, 1, 1, 1⟩, 0⟩

/-- Concrete cache for the C2 witness. -/
def c2cached : Cache3 := set_key (set_key (fun _ => none) ("u") (1, 2, 0)) ("v") (3, 4, 0)

/-- C2 (witness): the theorem applied to a concrete NOR gate over `u, v` and
a concrete NOT gate over `u`, with the one-gene library `[c2gene]`. -/
theorem nor_not_steady_state_combination_witness :
    (([c2gene])[0]? = some c2gene)
    ∧ c2cached ("u") = some (1, 2, 0)
    ∧ c2cached ("v") = some (3, 4, 0)
    ∧ Devices.Gate.test_steady_state ⟨"w", ["u", "v"], Devices.GateKind.Nor⟩ [c2gene] 0 c2cached =
        some (set_key c2cached ("w")
          (c2gene.transfer (min 2 4) / c2gene.params.decay,
            c2gene.transfer (1 + 3) / c2gene.params.decay,
            |(2 : ℝ) - 4| + |(1 : ℝ) - 3| + 0 + 0))
    ∧ Devices.Gate.test_steady_state ⟨"z", ["u"], Devices.GateKind.Not⟩ [c2gene] 0 c2cached =
        some (set_key c2cached ("z")
          (c2gene.transfer 2 / c2gene.params.decay,
            c2gene.transfer 1 / c2gene.params.decay, 0)) := by
  have h := nor_not_steady_state_combination [c2gene] 0 c2gene rfl
    ⟨"w", ["u", "v"], Devices.GateKind.Nor⟩ ⟨"z", ["u"], Devices.GateKind.Not⟩
    ("u") ("v") ("u") c2cached c2cached 1 2 0 3 4 0 1 2 0
    rfl rfl rfl rfl rfl rfl rfl
  exact ⟨rfl, rfl, rfl, h.1, h.2⟩

/-! ## Claim C8 — one explicit-Euler step per gene -/

/-- C8 (confirmed): at each simulation step each gene, in assembly order,
is driven by the sum of its input promoters' current concentrations,
`flux = transfer(x) - decay * state` is added to its concentration (one
explicit-Euler step with `dt = 1`), and the new concentration is appended to
its history; all other promoters are untouched by that gene's update. -/
theorem model_and_save_euler_step (g : GC.Gene) (st : GC.SimSt) :
    ((g.model_and_save st).states g.data.promoter =
        st.states g.data.promoter +
          (g.transfer ((g.inputs.map st.states).sum) -
            g.data.params.decay * st.states g.data.promoter))
    ∧ ((g.model_and_save st).history g.data.promoter =
        st.history g.data.promoter ++
          [st.states g.data.promoter +
            (g.transfer ((g.inputs.map st.states).sum) -
              g.data.params.decay * st.states g.data.promoter)])
    ∧ (∀ q, q ≠ g.data.promoter →
        (g.model_and_save st).states q = st.states q ∧
          (g.model_and_save st).history q = st.history q)
    ∧ (∀ gc stx, GC.GeneticCircuit.genes_phase gc stx =
        gc.components.foldl (fun s comp => comp.model_and_save s) stx) := by
  refine ⟨?_, ?_, ?_, fun gc stx => rfl⟩
  · simp [GC.Gene.model_and_save, GC.Gene.model, set_fun]
  · simp [GC.Gene.model_and_save, GC.Gene.model, set_fun]
  · intro q hq
    constructor
    · simp [GC.Gene.model_and_save, set_fun, hq]
    · simp [GC.Gene.model_and_save, set_fun, hq]

/-- Concrete gene for the C8 witness. -/
def c8gene : GC.Gene := ⟨⟨"g_a", [], "Pg", "", [], ⟨2, 1, 1, 1, 1⟩, 0⟩, "", ["Px"]⟩

/-- Concrete simulation state for the C8 witness. -/
def c8st : GC.SimSt := ⟨fun _ => 0, fun _ => []⟩

/-- C8 (witness): the theorem applied at a concrete gene and state; the
frame part is instantiated at the distinct promoter `"q0"`. -/
theorem model_and_save_euler_step_witness :
    (("q0" : String) ≠ c8gene.data.promoter)
    ∧ (c8gene.model_and_save c8st).states ("q0") = c8st.states ("q0")
    ∧ (c8gene.model_and_save c8st).states c8gene.data.promoter =
        c8st.states c8gene.data.promoter +
          (c8gene.transfer ((c8gene.inputs.map c8st.states).sum) -
            c8gene.data.params.decay * c8st.states c8gene.data.promoter) :=
  ⟨by decide,
    ((model_and_save_euler_step c8gene c8st).2.2.1 ("q0") (by decide)).1,
    (model_and_save_euler_step c8gene c8st).1⟩

/-! ## Claim C1 — the top-level score -/

/-- C1 (amended): once the output node is resolved to `(off, on, diff, s)`,
the top-level score is `exp(-diff/10) * s`, where `s` is the score slot the
evaluator carries alongside the tuple (seeded as `rpu_on/rpu_off` at inputs,
set to `(on0+on1)/(off0+off1)` at a two-input combination, passed through
otherwise) — not the ratio `on/off` of the resolved output values. -/
theorem genetic_circuit_test_score_uses_cached_ratio (gc : GC.GeneticCircuit)
    (coff con d s : ℝ) (h : gc.resolved_output = some (coff, con, d, s)) :
    gc.test = some (GC.GeneticCircuit.inv_diff_error d * s) := by
  simp [GC.GeneticCircuit.test, h]

/-- Degenerate circuit for the C1 witness: the output actuator reads an
input promoter directly. -/
def c1wgc : GC.GeneticCircuit := ⟨[⟨"x", "Px", 1, 4⟩], [⟨"o", "Px"⟩], [], none⟩

/-- C1 (witness for the amended theorem). -/
theorem genetic_circuit_test_score_uses_cached_ratio_witness :
    c1wgc.resolved_output = some (1, 4, 0, 4 / 1)
    ∧ c1wgc.test = some (GC.GeneticCircuit.inv_diff_error 0 * (4 / 1)) :=
  ⟨rfl, genetic_circuit_test_score_uses_cached_ratio c1wgc 1 4 0 (4 / 1) rfl⟩

/-- Concrete circuit refuting C1 as stated: one input `(rpu_off = 1,
rpu_on = 4)` feeding one single-input gene with Hill parameters
`ymax = 3, ymin = 1, K = 1, n = 1, decay = 1`. -/
def c1gc : GC.GeneticCircuit :=
  ⟨[⟨"x", "Px", 1, 4⟩], [⟨"o", "Pg"⟩],
    [GC.Component.Gene ⟨⟨"g_a", [], "Pg", "", [], ⟨3, 1, 1, 1, 1⟩, 0⟩, "", ["Px"]⟩], none⟩

/-- C1 (counterexample): on `c1gc` the output node resolves to
`(off, on, diff) = (7/5, 2, 0)` but the returned score is `4`
(the carried input ratio `rpu_on/rpu_off`), while the claim's formula
`exp(-diff/10) * (on/off)` gives `10/7 ≠ 4`. -/
theorem genetic_circuit_test_score_counterexample :
    GC.GeneticCircuit.test c1gc = some 4
    ∧ GC.GeneticCircuit.resolved_output c1gc = some ((7 : ℝ)/5, 2, 0, 4)
    ∧ (4 : ℝ) ≠ GC.GeneticCircuit.inv_diff_error 0 * (2 / ((7 : ℝ)/5)) := by
  refine ⟨?_, ?_, ?_⟩
  · simp [GC.GeneticCircuit.test, GC.GeneticCircuit.resolved_output, c1gc,
      GC.GeneticCircuit.test_init, GC.Component.test_steady_state,
      GC.Gene.test_steady_state, GC.Gene.steady_state, GC.Gene.transfer,
      GC.Gene.promoter, set_key, GC.GeneticCircuit.inv_diff_error]
  · simp [GC.GeneticCircuit.resolved_output, c1gc,
      GC.GeneticCircuit.test_init, GC.Component.test_steady_state,
      GC.Gene.test_steady_state, GC.Gene.steady_state, GC.Gene.transfer,
      GC.Gene.promoter, set_key]
    norm_num [Real.rpow_one]
  · rw [GC.GeneticCircuit.inv_diff_error]
    norm_num [Real.exp_zero]

/-! ## Claims C10 and C3 — properties of `choose_node` and `walk` -/

/-- An index returned by the accumulation pass is within the enumerated
range. -/
theorem choose_acc_lt (lib : List Asm.BioGate) (bl : List String) (ch s : ℝ) :
    ∀ (l : List ℝ) (i : ℕ) (acc : ℝ) (j : ℕ),
      Asm.choose_acc lib bl ch s i acc l = some j → j < i + l.length := by
  intro l
  induction l with
  | nil => intro i acc j h; simp [Asm.choose_acc] at h
  | cons w rest ih =>
    intro i acc j h
    simp only [Asm.choose_acc] at h
    simp only [List.length_cons]
    split at h
    · have := ih (i + 1) acc j h
      omega
    · split at h
      · cases h
        omega
      · have := ih (i + 1) (acc + w / s) j h
        omega

/-- An index returned by the accumulation pass is never blacklisted. -/
theorem choose_acc_not_mem (lib : List Asm.BioGate) (bl : List String) (ch s : ℝ) :
    ∀ (l : List ℝ) (i : ℕ) (acc : ℝ) (j : ℕ),
      Asm.choose_acc lib bl ch s i acc l = some j →
      Helpers.get_group ((lib.getD j Asm.default_gate).name) ∉ bl := by
  intro l
  induction l with
  | nil => intro i acc j h; simp [Asm.choose_acc] at h
  | cons w rest ih =>
    intro i acc j h
    simp only [Asm.choose_acc] at h
    split at h
    · exact ih (i + 1) acc j h
    · rename_i hmem
      split at h
      · cases h
        exact hmem
      · exact ih (i + 1) (acc + w / s) j h

/-- When every enumerated candidate is blacklisted the accumulation pass
returns nothing. -/
theorem choose_acc_all_mem (lib : List Asm.BioGate) (bl : List String) (ch s : ℝ) :
    ∀ (l : List ℝ) (i : ℕ) (acc : ℝ),
      (∀ t, i ≤ t → t < i + l.length →
        Helpers.get_group ((lib.getD t Asm.default_gate).name) ∈ bl) →
      Asm.choose_acc lib bl ch s i acc l = none := by
  intro l
  induction l with
  | nil => intro i acc _; simp [Asm.choose_acc]
  | cons w rest ih =>
    intro i acc h
    have hi : Helpers.get_group ((lib.getD i Asm.default_gate).name) ∈ bl := by
      refine h i (Nat.le_refl i) ?_
      simp only [List.length_cons]
      omega
    simp only [Asm.choose_acc, if_pos hi]
    refine ih (i + 1) acc (fun t ht1 ht2 => h t (by omega) ?_)
    simp only [List.length_cons]
    omega

/-- When every enumerated candidate is blacklisted the summing pass adds
nothing. -/
theorem choose_sum_all_mem (lib : List Asm.BioGate) (bl : List String) :
    ∀ (l : List ℝ) (i : ℕ) (s0 : ℝ),
      (∀ t, i ≤ t → t < i + l.length →
        Helpers.get_group ((lib.getD t Asm.default_gate).name) ∈ bl) →
      Asm.choose_sum lib bl i s0 l = s0 := by
  intro l
  induction l with
  | nil => intro i s0 _; simp [Asm.choose_sum]
  | cons w rest ih =>
    intro i s0 h
    have hi : Helpers.get_group ((lib.getD i Asm.default_gate).name) ∈ bl := by
      refine h i (Nat.le_refl i) ?_
      simp only [List.length_cons]
      omega
    simp only [Asm.choose_sum, if_pos hi]
    refine ih (i + 1) s0 (fun t ht1 ht2 => h t (by omega) ?_)
    simp only [List.length_cons]
    omega

/-- C10 (confirmed): for a weight vector of length at least one and a draw in
`[0, 1]`, `choose_node` always returns an index below the length; when every
candidate's group is excluded, no accumulation branch fires (the sum is `0`)
and the result is the fallback index `length - 1`. -/
theorem choose_node_index_bounds_and_fallback (lib : List Asm.BioGate) (ch : ℝ)
    (weights : List ℝ) (bl : List String) (h1 : 1 ≤ weights.length)
    (hc0 : 0 ≤ ch) (hc1 : ch ≤ 1) :
    Asm.choose_node lib ch weights bl < weights.length
    ∧ ((∀ t, t < weights.length →
          Helpers.get_group ((lib.getD t Asm.default_gate).name) ∈ bl) →
        Asm.choose_sum lib bl 0 0 weights = 0
        ∧ Asm.choose_node lib ch weights bl = weights.length - 1) := by
  constructor
  · unfold Asm.choose_node
    rcases hacc : Asm.choose_acc lib bl ch (Asm.choose_sum lib bl 0 0 weights) 0 0 weights
      with _ | j
    · simp only [hacc]
      omega
    · simp only [hacc]
      have := choose_acc_lt lib bl ch (Asm.choose_sum lib bl 0 0 weights) weights 0 0 j hacc
      omega
  · intro hall
    have hnone := choose_acc_all_mem lib bl ch (Asm.choose_sum lib bl 0 0 weights)
      weights 0 0 (fun t _ ht2 => hall t (by omega))
    have hsum := choose_sum_all_mem lib bl weights 0 0 (fun t _ ht2 => hall t (by omega))
    refine ⟨hsum, ?_⟩
    unfold Asm.choose_node
    rw [hsum] at hnone
    simp only [hsum, hnone]

/-- Concrete one-gate library for the C10 witness. -/
def c10lib : List Asm.BioGate := [⟨"a_g", [], "", ⟨0, 0, 0, 0⟩⟩]

/-- C10 (witness): with the single gate `a_g` (group `g`) excluded, the draw
`0`, and weight vector `[1]`, the result is in range and equals the fallback
index `0 = length - 1`, whose group is itself excluded. -/
theorem choose_node_index_bounds_and_fallback_witness :
    (1 ≤ ([1] : List ℝ).length)
    ∧ ((0 : ℝ) ≤ 0)
    ∧ ((0 : ℝ) ≤ 1)
    ∧ (∀ t, t < ([1] : List ℝ).length →
        Helpers.get_group ((c10lib.getD t Asm.default_gate).name) ∈ (["g"] : List String))
    ∧ Asm.choose_node c10lib 0 [1] ["g"] < ([1] : List ℝ).length
    ∧ Asm.choose_node c10lib 0 [1] ["g"] = ([1] : List ℝ).length - 1 :=
  ⟨by decide, le_refl 0, zero_le_one, by decide,
    (choose_node_index_bounds_and_fallback c10lib 0 [1] ["g"] (by decide)
      (le_refl 0) zero_le_one).1,
    ((choose_node_index_bounds_and_fallback c10lib 0 [1] ["g"] (by decide)
      (le_refl 0) zero_le_one).2 (by decide)).2⟩

/-- `walk` and `walk_list` only ever extend the blacklist and the selected
assignment: every group in the incoming blacklist is in the outgoing one and
every selected binding is preserved. -/
theorem walk_mono (inputsL : List Asm.Input) (lib : List Asm.BioGate)
    (gates : List (String × Builder.Gate)) (layers : Asm.Layers) :
    ∀ fuel : ℕ,
      (∀ name prev st st',
        Asm.walk inputsL lib gates layers fuel name prev st = some st' →
        (∀ x, x ∈ st.bl → x ∈ st'.bl)
        ∧ (∀ k v, List.lookup k st.selected = some v → List.lookup k st'.selected = some v))
      ∧ (∀ l prev st st',
        Asm.walk_list inputsL lib gates layers fuel l prev st = some st' →
        (∀ x, x ∈ st.bl → x ∈ st'.bl)
        ∧ (∀ k v, List.lookup k st.selected = some v → List.lookup k st'.selected = some v)) := by
  intro fuel
  induction fuel with
  | zero =>
    constructor
    · intro name prev st st' h
      simp [Asm.walk] at h
    · intro l prev st st' h
      cases l with
      | nil =>
        simp only [Asm.walk_list, Option.some.injEq] at h
        subst h
        exact ⟨fun x hx => hx, fun k v hv => hv⟩
      | cons a rest => simp [Asm.walk_list] at h
  | succ fuel ih =>
    constructor
    · intro name prev st st' h
      rw [Asm.walk] at h
      split at h
      · cases h
        exact ⟨fun x hx => hx, fun k v hv => hv⟩
      · rename_i hcond
        have hsel : List.lookup name st.selected = none := by
          rcases hv : List.lookup name st.selected with _ | v
          · rfl
          · exact absurd (Or.inr (by simp [hv])) hcond
        simp only [Option.bind_eq_bind', Option.bind_eq_some'] at h
        obtain ⟨gate, hgate, h⟩ := h
        obtain ⟨layer, hlayer, h⟩ := h
        obtain ⟨row, hrow, h⟩ := h
        obtain ⟨ch, hch, h⟩ := h
        obtain ⟨node, hnode, h⟩ := h
        have hm := (ih.2 gate.inputs (Asm.choose_node lib ch row st.bl) _ st' h)
        constructor
        · intro x hx
          exact hm.1 x (List.mem_cons_of_mem _ hx)
        · intro k v hv
          by_cases hkn : k = name
          · subst hkn
            rw [hsel] at hv
            exact Option.noConfusion hv
          · refine hm.2 k v ?_
            have hb : (k == name) = false := beq_eq_false_iff_ne.mpr hkn
            simp [List.lookup, hb, hv]
    · intro l prev st st' h
      cases l with
      | nil =>
        simp only [Asm.walk_list, Option.some.injEq] at h
        subst h
        exact ⟨fun x hx => hx, fun k v hv => hv⟩
      | cons inp rest =>
        simp only [Asm.walk_list, Option.bind_eq_some'] at h
        obtain ⟨mid, h1, h2⟩ := h
        have hm1 := ih.1 inp prev st mid h1
        have hm2 := ih.2 rest prev mid st' h2
        exact ⟨fun x hx => hm2.1 x (hm1.1 x hx),
          fun k v hv => hm2.2 k v (hm1.2 k v hv)⟩

/-- C3 (amended): the chosen gate's group is inserted into the exclusion set
during the walk, and any candidate chosen through the accumulation branch
has its group outside the set — an excluded candidate can only come back
through the last-index fallback, so the exclusion invariant can fail when
every candidate is excluded. -/
theorem walk_exclusion_fallback_only :
    (∀ (lib : List Asm.BioGate) (ch : ℝ) (row : List ℝ) (bl : List String),
        Helpers.get_group ((lib.getD (Asm.choose_node lib ch row bl) Asm.default_gate).name) ∈ bl →
        Asm.choose_node lib ch row bl = row.length - 1)
    ∧ (∀ (inputsL : List Asm.Input) (lib : List Asm.BioGate)
          (gates : List (String × Builder.Gate)) (layers : Asm.Layers)
          (fuel : ℕ) (name : String) (prev : ℕ) (st st' : Asm.WalkSt),
        Asm.walk inputsL lib gates layers (fuel + 1) name prev st = some st' →
        Asm.has_input inputsL name = false →
        List.lookup name st.selected = none →
        ∃ sel node, lib[sel]? = some node
          ∧ List.lookup name st'.selected = some sel
          ∧ Helpers.get_group node.name ∈ st'.bl) := by
  constructor
  · intro lib ch row bl hmem
    unfold Asm.choose_node at hmem ⊢
    rcases hacc : Asm.choose_acc lib bl ch (Asm.choose_sum lib bl 0 0 row) 0 0 row with _ | j
    · simp only [hacc]
    · exfalso
      simp only [hacc] at hmem
      exact choose_acc_not_mem lib bl ch (Asm.choose_sum lib bl 0 0 row) row 0 0 j hacc hmem
  · intro inputsL lib gates layers fuel name prev st st' hw hinp hsel
    rw [Asm.walk] at hw
    rw [if_neg (by simp [hinp, hsel])] at hw
    simp only [Option.bind_eq_bind', Option.bind_eq_some'] at hw
    obtain ⟨gate, hgate, hw⟩ := hw
    obtain ⟨layer, hlayer, hw⟩ := hw
    obtain ⟨row, hrow, hw⟩ := hw
    obtain ⟨ch, hch, hw⟩ := hw
    obtain ⟨node, hnode, hw⟩ := hw
    have hm := (walk_mono inputsL lib gates layers fuel).2 gate.inputs
      (Asm.choose_node lib ch row st.bl) _ st' hw
    refine ⟨Asm.choose_node lib ch row st.bl, node, hnode, ?_, ?_⟩
    · refine hm.2 name (Asm.choose_node lib ch row st.bl) ?_
      simp [List.lookup]
    · exact hm.1 _ (List.mem_cons_self _ _)

/-- Two-gate library sharing group `g` for the C3 counterexample. -/
def c3lib : List Asm.BioGate := [⟨"a_g", [], "Pa", ⟨0, 0, 0, 0⟩⟩, ⟨"b_g", [], "Pb", ⟨0, 0, 0, 0⟩⟩]

/-- Input catalog for the C3 counterexample: a single signal named `g`,
which is also the gates' group, so the per-iteration blacklist (seeded with
the circuit's input names) excludes the whole library from the start. -/
def c3inputs : List Asm.Input := [⟨"g", "Pg", 0, 0⟩]

/-- Gate chain `n2 → n1 → g` for the C3 counterexample. -/
def c3gates : List (String × Builder.Gate) :=
  [("n2", ⟨["n1"], Builder.GateKind.NOT⟩), ("n1", ⟨["g"], Builder.GateKind.NOT⟩)]

/-- Weight layers for the C3 counterexample. -/
def c3layers : Asm.Layers := [("n2", [[1, 1]]), ("n1", [[1, 1], [1, 1]])]

/-- Initial walk state for the C3 counterexample: the blacklist is seeded
with the circuit's input names, as in `assembler.rs::search` line 533. -/
def c3st0 : Asm.WalkSt := ⟨[], ["g"], [0, 0]⟩

/-- C3 (counterexample): on the two-gate chain `n2 → n1 → input g`, with a
library of two gates both of group `g` (a library size that passes the
capacity check), the sampler assigns gate index `1` (group `g`) to *both*
positions through the fallback, although the group was already in the
exclusion set before either choice: two assigned gates sharing a group lie
on the common path from the output `n2` through `n1` to the input `g`. -/
theorem walk_exclusion_counterexample :
    Asm.walk c3inputs c3lib c3gates c3layers 5 ("n2") 0 c3st0 =
      some ⟨[("n1", 1), ("n2", 1)], ["g", "g", "g"], []⟩
    ∧ List.lookup ("n2") [("n1", 1), ("n2", 1)] = some 1
    ∧ List.lookup ("n1") [("n1", 1), ("n2", 1)] = some 1
    ∧ Helpers.get_group (c3lib.getD 1 Asm.default_gate).name ∈ c3st0.bl
    ∧ (List.lookup ("n2") c3gates).map (fun g => g.inputs) = some ["n1"]
    ∧ (List.lookup ("n1") c3gates).map (fun g => g.inputs) = some ["g"]
    ∧ Asm.has_input c3inputs ("g") = true
    ∧ c3gates.length ≤ c3lib.length :=
  ⟨rfl, rfl, rfl, by decide, rfl, rfl, by decide, by decide⟩

/-- One-gate instance for the C3 witness. -/
def c3wlib : List Asm.BioGate := [⟨"a_g", [], "", ⟨0, 0, 0, 0⟩⟩]

/-- Input catalog for the C3 witness. -/
def c3winputs : List Asm.Input := [⟨"g", "Pg", 0, 0⟩]

/-- Gate map for the C3 witness. -/
def c3wgates : List (String × Builder.Gate) := [("n1", ⟨["g"], Builder.GateKind.NOT⟩)]

/-- Layers for the C3 witness. -/
def c3wlayers : Asm.Layers := [("n1", [[1]])]

/-- C3 (witness for the amended theorem): a concrete walk step that chooses
a gate and whose group lands in the final exclusion set. -/
theorem walk_exclusion_fallback_only_witness :
    Asm.walk c3winputs c3wlib c3wgates c3wlayers 3 ("n1") 0 ⟨[], ["g"], [0]⟩ =
      some ⟨[("n1", 0)], ["g", "g"], []⟩
    ∧ Asm.has_input c3winputs ("n1") = false
    ∧ (∃ sel node, c3wlib[sel]? = some node
        ∧ List.lookup ("n1") (Asm.WalkSt.selected ⟨[("n1", 0)], ["g", "g"], []⟩) = some sel
        ∧ Helpers.get_group node.name ∈ Asm.WalkSt.bl ⟨[("n1", 0)], ["g", "g"], []⟩) :=
  ⟨rfl, by decide,
    walk_exclusion_fallback_only.2 c3winputs c3wlib c3wgates c3wlayers 2 ("n1") 0
      ⟨[], ["g"], [0]⟩ ⟨[("n1", 0)], ["g", "g"], []⟩ rfl (by decide) rfl⟩

/-! ## Claim C4 — capacity check and iteration budget -/

/-- The recursive search loop equals the monadic fold of `search_step` over
the full index range `0, 1, …, n-1`. -/
theorem search_loop_eq_foldlM (c : Asm.SearchCtx) :
    ∀ n, Asm.search_loop c n =
      (List.range n).foldlM (fun st k => Asm.search_step c k st) (Asm.init_state c) := by
  intro n
  induction n with
  | zero => rfl
  | succ n ih =>
    rw [List.range_succ, List.foldlM_append, ← ih]
    simp [Asm.search_loop]

/-- C4 (confirmed): `search` fails with the capacity error exactly when the
number of non-input gates exceeds the library size — before any layer is
built and before any iteration runs — and otherwise executes the fold of the
per-iteration step over the full budget of 6000 iteration indices. -/
theorem search_capacity_check_and_budget (c : Asm.SearchCtx) :
    Asm.search c =
      (if c.lc.gates.length > c.lib.length then
        some (Except.error (Helpers.assign_err (Asm.capacity_message c.lib.length) (0, 0)))
      else
        ((List.range 6000).foldlM (fun st k => Asm.search_step c k st) (Asm.init_state c)).map
          (fun st => Except.ok (st.best_ass, st.best_score)))
    ∧ (List.range 6000).length = 6000 := by
  constructor
  · unfold Asm.search
    split
    · rfl
    · rw [search_loop_eq_foldlM]
  · simp

/-! ## Claim C9 — monotone incumbent -/

/-- The incumbent update never decreases the best score. -/
theorem incumbent_score_ge (score best : ℝ) : best ≤ Asm.incumbent_score score best := by
  unfold Asm.incumbent_score
  split
  · exact le_of_lt (by assumption)
  · exact le_rfl

/-- One search iteration never decreases the best score. -/
theorem search_step_best_mono (c : Asm.SearchCtx) (i : ℕ) (st st' : Asm.SearchSt)
    (h : Asm.search_step c i st = some st') : st.best_score ≤ st'.best_score := by
  unfold Asm.search_step at h
  simp only [Option.bind_eq_bind', Option.bind_eq_some'] at h
  obtain ⟨w, hw, h⟩ := h
  obtain ⟨t1, ht1, h⟩ := h
  obtain ⟨t2, ht2, h⟩ := h
  obtain ⟨u, hu, h⟩ := h
  have h' : st' = ⟨u.1, Asm.incumbent_score (t2.1.2 / t2.1.1) st.best_score,
      Asm.incumbent_ass (t2.1.2 / t2.1.1) st.best_score w.selected st.best_ass⟩ := by
    cases h
    rfl
  rw [h']
  exact incumbent_score_ge _ _

/-- C9 (confirmed): across the iterations of one search run the recorded
best score is non-decreasing, and the incumbent only changes when the new
candidate's score strictly exceeds it. -/
theorem search_incumbent_monotone (c : Asm.SearchCtx) :
    (∀ k m stk stm, k ≤ m →
      Asm.search_loop c k = some stk → Asm.search_loop c m = some stm →
      stk.best_score ≤ stm.best_score)
    ∧ (∀ score best, Asm.incumbent_score score best ≠ best →
        best < Asm.incumbent_score score best) := by
  constructor
  · intro k m stk stm hkm hk
    induction m, hkm using Nat.le_induction generalizing stm with
    | base =>
      intro hm
      rw [hk] at hm
      cases hm
      exact le_rfl
    | succ n hn ih =>
      intro hm
      have hstep : ∃ st, Asm.search_loop c n = some st ∧ Asm.search_step c n st = some stm := by
        simpa only [Asm.search_loop, Option.bind_eq_some'] using hm
      obtain ⟨st, h1, h2⟩ := hstep
      exact le_trans (ih st h1) (search_step_best_mono c n st stm h2)
  · intro score best h
    by_cases hgt : score > best
    · simpa [Asm.incumbent_score, hgt] using hgt
    · exfalso
      apply h
      simp [Asm.incumbent_score, hgt]

/-- Context with an empty circuit for the C9 witness. -/
def c9ctx : Asm.SearchCtx :=
  ⟨[], [], ⟨[], ⟨"out", 0⟩, []⟩, fun _ => [], fun _ => 0, 1⟩

/-- C9 (witness): the loop-monotonicity part applied at `k = m = 0` on a
concrete context, and the strict-replacement part applied at
`score = 1, best = 0`. -/
theorem search_incumbent_monotone_witness :
    ((0 : ℕ) ≤ 0)
    ∧ Asm.search_loop c9ctx 0 = some (Asm.init_state c9ctx)
    ∧ (Asm.init_state c9ctx).best_score ≤ (Asm.init_state c9ctx).best_score
    ∧ Asm.incumbent_score 1 0 ≠ 0
    ∧ (0 : ℝ) < Asm.incumbent_score 1 0 :=
  ⟨Nat.le_refl 0, rfl, (search_incumbent_monotone c9ctx).1 0 0 _ _ (Nat.le_refl 0) rfl rfl,
    by simp [Asm.incumbent_score, zero_lt_one],
    (search_incumbent_monotone c9ctx).2 1 0 (by simp [Asm.incumbent_score, zero_lt_one])⟩

/-! ## Claim C7 — trace length of the dynamics simulation -/

/-- The breakpoint phase touches only the concentrations, never the
histories. -/
theorem bp_phase_history (signals : String → GC.Signal) (tb : GC.Testbench) (i : ℕ)
    (st : GC.SimSt) :
    (GC.GeneticCircuit.bp_phase signals tb i st).history = st.history := by
  unfold GC.GeneticCircuit.bp_phase
  cases List.lookup i tb.breakpoints <;> rfl

/-- The input phase appends one entry per input promoter occurrence. -/
theorem inputs_fold_hist_len :
    ∀ (l : List GC.Signal) (st : GC.SimSt) (p : String),
      ((l.foldl
          (fun s inp =>
            ⟨s.states, set_fun s.history inp.promoter
              (s.history inp.promoter ++ [s.states inp.promoter])⟩) st).history p).length
        = (st.history p).length + (l.map (fun i => i.promoter)).count p := by
  intro l
  induction l with
  | nil => intro st p; simp
  | cons i rest ih =>
    intro st p
    rw [List.foldl_cons, ih]
    by_cases heq : p = i.promoter
    · subst heq
      simp [set_fun, List.count_cons]
      omega
    · have hb : (i.promoter == p) = false := beq_eq_false_iff_ne.mpr (Ne.symm heq)
      simp [set_fun, heq, List.count_cons, hb]

/-- The gene phase appends one entry per gene-component promoter occurrence
(when every component is a gene). -/
theorem genes_fold_hist_len :
    ∀ (l : List GC.Component) (st : GC.SimSt) (p : String),
      (∀ cmp ∈ l, cmp.isGene = true) →
      ((l.foldl (fun s comp => comp.model_and_save s) st).history p).length
        = (st.history p).length + (l.map GC.Component.promoter).count p := by
  intro l
  induction l with
  | nil => intro st p _; simp
  | cons c rest ih =>
    intro st p h
    rcases c with g | s
    · rw [List.foldl_cons, ih _ p (fun cmp hm => h cmp (List.mem_cons_of_mem _ hm))]
      by_cases heq : p = g.data.promoter
      · subst heq
        simp [GC.Component.model_and_save, GC.Gene.model_and_save, set_fun,
          GC.Component.promoter, GC.Gene.promoter, List.count_cons]
        omega
      · have hb : (GC.Component.promoter (GC.Component.Gene g) == p) = false := by
          simp [GC.Component.promoter, GC.Gene.promoter]
          exact Ne.symm heq
        simp [GC.Component.model_and_save, GC.Gene.model_and_save, set_fun, heq,
          List.count_cons, hb]
    · exact absurd (h (GC.Component.Signal s) (List.mem_cons_self _ _)) (by simp [GC.Component.isGene])

/-- One simulation step appends exactly `count p tracked` entries to promoter
`p`'s history. -/
theorem sim_step_hist_len (signals : String → GC.Signal) (tb : GC.Testbench)
    (gc : GC.GeneticCircuit) (i : ℕ) (st : GC.SimSt) (p : String)
    (hg : ∀ cmp ∈ gc.components, cmp.isGene = true) :
    ((GC.GeneticCircuit.sim_step signals tb gc i st).history p).length
      = (st.history p).length + (GC.GeneticCircuit.tracked gc).count p := by
  unfold GC.GeneticCircuit.sim_step GC.GeneticCircuit.genes_phase GC.GeneticCircuit.inputs_phase
  rw [genes_fold_hist_len _ _ p hg, inputs_fold_hist_len]
  rw [congrArg List.length (congrFun (bp_phase_history signals tb i st) p)]
  unfold GC.GeneticCircuit.tracked
  rw [List.count_append]
  omega

/-- Iterating the simulation step over an index list appends
`length * count` entries. -/
theorem sim_loop_hist_len (signals : String → GC.Signal) (tb : GC.Testbench)
    (gc : GC.GeneticCircuit) (p : String)
    (hg : ∀ cmp ∈ gc.components, cmp.isGene = true) :
    ∀ (l : List ℕ) (st : GC.SimSt),
      ((l.foldl (fun s i => GC.GeneticCircuit.sim_step signals tb gc i s) st).history p).length
        = (st.history p).length + l.length * (GC.GeneticCircuit.tracked gc).count p := by
  intro l
  induction l with
  | nil => intro st; simp
  | cons i rest ih =>
    intro st
    rw [List.foldl_cons, ih, sim_step_hist_len signals tb gc i st p hg]
    rw [List.length_cons, Nat.succ_mul]
    omega

/-- A fold that stores the empty history at some keys preserves
all-empty histories. -/
theorem set_nil_fold {α : Type} (key : α → String) :
    ∀ (l : List α) (h : String → List ℝ),
      (∀ p, h p = []) →
      ∀ p, (l.foldl (fun hh x => set_fun hh (key x) ([] : List ℝ)) h) p = [] := by
  intro l
  induction l with
  | nil => intro h hp p; exact hp p
  | cons x rest ih =>
    intro h hp p
    refine ih _ (fun q => ?_) p
    simp only [set_fun]
    split
    · rfl
    · exact hp q

/-- Every history starts empty. -/
theorem sim_init_hist (gc : GC.GeneticCircuit) (p : String) :
    (GC.GeneticCircuit.sim_init gc).history p = [] := by
  show (gc.components.foldl (fun hh comp => set_fun hh comp.promoter ([] : List ℝ))
      (gc.inputs.foldl (fun hh inp => set_fun hh inp.promoter ([] : List ℝ))
        (fun _ => []))) p = []
  exact set_nil_fold GC.Component.promoter gc.components _
    (set_nil_fold (fun i => i.promoter) gc.inputs _ (fun _ => rfl)) p

/-- C7 (amended): for a genetic circuit whose tracked promoters (input
promoters and component promoters) are pairwise distinct and whose
components are all genes, every tracked promoter's simulated history has
exactly 1000 entries; in general a promoter receives one entry per
occurrence per step. -/
theorem simulate_trace_length (signals : String → GC.Signal) (gc : GC.GeneticCircuit)
    (tb : GC.Testbench) (hnd : (GC.GeneticCircuit.tracked gc).Nodup)
    (hg : ∀ cmp ∈ gc.components, cmp.isGene = true) :
    ∀ p ∈ GC.GeneticCircuit.tracked gc,
      ((GC.GeneticCircuit.simulate signals gc tb).history p).length = 1000 := by
  intro p hp
  have hcount : (GC.GeneticCircuit.tracked gc).count p = 1 :=
    List.count_eq_one_of_mem hnd hp
  unfold GC.GeneticCircuit.simulate
  rw [sim_loop_hist_len signals tb gc p hg, sim_init_hist, hcount]
  simp

/-- Default signal map for the C7 counterexample and witness. -/
def c7signals : String → GC.Signal := fun _ => ⟨"", "", 0, 0⟩

/-- Circuit with two gene components sharing the promoter `Pg`, as
`into_biological` produces when the same library index is selected for two
positions (the sampler's last-index fallback can do exactly that). -/
def c7dupgc : GC.GeneticCircuit :=
  ⟨[⟨"x", "Px", 1, 2⟩], [⟨"o", "Pg"⟩],
    [GC.Component.Gene ⟨⟨"g_a", [], "Pg", "", [], ⟨2, 1, 1, 1, 1⟩, 0⟩, "", ["Px"]⟩,
     GC.Component.Gene ⟨⟨"g_a", [], "Pg", "", [], ⟨2, 1, 1, 1, 1⟩, 0⟩, "", ["Px"]⟩], none⟩

/-- C7 (counterexample): the claim quantifies over every `GeneticCircuit`,
but when two gene components share a promoter the simulation pushes one
entry per occurrence per step, so that promoter's history has 2000 entries,
not 1000. -/
theorem simulate_trace_length_counterexample :
    (c7dupgc.components.map GC.Component.promoter = ["Pg", "Pg"])
    ∧ ("Pg" ∈ GC.GeneticCircuit.tracked c7dupgc)
    ∧ ((GC.GeneticCircuit.simulate c7signals c7dupgc ⟨[]⟩).history ("Pg")).length = 2000
    ∧ (2000 : ℕ) ≠ 1000 := by
  refine ⟨rfl, by decide, ?_, by decide⟩
  unfold GC.GeneticCircuit.simulate
  rw [sim_loop_hist_len c7signals ⟨[]⟩ c7dupgc ("Pg") (by decide), sim_init_hist]
  rw [show (GC.GeneticCircuit.tracked c7dupgc).count ("Pg") = 2 from by decide]
  simp

/-- Concrete circuit for the C7 witness: one input on promoter `Px` and one
gene on promoter `Pg`. -/
def c7gc : GC.GeneticCircuit :=
  ⟨[⟨"x", "Px", 1, 2⟩], [⟨"o", "Pg"⟩],
    [GC.Component.Gene ⟨⟨"g_a", [], "Pg", "", [], ⟨2, 1, 1, 1, 1⟩, 0⟩, "", ["Px"]⟩], none⟩

/-- C7 (witness): the theorem applied to `c7gc` with an empty testbench at
the tracked promoter `Pg`. -/
theorem simulate_trace_length_witness :
    (GC.GeneticCircuit.tracked c7gc).Nodup
    ∧ (∀ cmp ∈ c7gc.components, cmp.isGene = true)
    ∧ ("Pg" ∈ GC.GeneticCircuit.tracked c7gc)
    ∧ ((GC.GeneticCircuit.simulate c7signals c7gc ⟨[]⟩).history ("Pg")).length = 1000 :=
  ⟨by decide, by decide, by decide,
    simulate_trace_length c7signals c7gc ⟨[]⟩ (by decide) (by decide) ("Pg") (by decide)⟩


